import Mathlib

/-!
Verification of the Health-Coach backend's context-assembly and generation
orchestration engine, shallowly embedded from the Python sources under
`backend/app/`.  Each service function is translated into an executable Lean
definition; the theorems at the end of the file settle the specification
claims against those definitions.
-/

namespace HealthCoach

/-! ## Token-budget allocation

Embeds the budget arithmetic of `ChatService._build_context`
(`chat_service.py`): `reserved_tokens = 1500 + settings.MAX_RESPONSE_TOKENS`,
`history_budget = settings.MAX_CONTEXT_TOKENS - reserved_tokens`, and the
allowance actually passed to `_get_recent_messages_with_budget` is
`max(1000, history_budget)`.  Python ints are unbounded, so `Int`. -/

def historyAllowance (maxContextTokens maxResponseTokens : Int) : Int :=
  let reservedTokens := 1500 + maxResponseTokens
  let historyBudget := maxContextTokens - reservedTokens
  max 1000 historyBudget

/-! ## Retrying generation wrapper

Embeds `ChatService._generate_response_with_retry` (`chat_service.py`).
The pluggable backend is modelled as a function from the attempt index to
that attempt's outcome: a success carrying the generated text, an
`asyncio.TimeoutError`, or another exception carrying its message. -/

inductive AttemptResult where
  | success (text : String)
  | timeout
  | failure (msg : String)
deriving DecidableEq, Repr

/-- The `last_error` string recorded by the `except` clauses of one loop
iteration: `"Request timed out"` for `asyncio.TimeoutError`, `str(e)`
otherwise.  (Only failures reach this.) -/
def attemptErrorMsg : AttemptResult → String
  | .success _ => ""
  | .timeout => "Request timed out"
  | .failure m => m

/-- Observable outcome of the retry loop: the returned text or the raised
`LLMError` message, the number of backend attempts made, and the list of
backoff sleeps (in seconds) performed between attempts. -/
structure RetryOut where
  result : Except String String
  attemptsMade : Nat
  waits : List Nat
deriving Repr

/-- The message of the `LLMError` raised on exhaustion:
`f"Failed to generate response after {max_retries + 1} attempts: {last_error}"`. -/
def exhaustMsg (maxRetries : Nat) (lastErr : String) : String :=
  "Failed to generate response after " ++ toString (maxRetries + 1) ++
    " attempts: " ++ lastErr

/-- The `for attempt in range(max_retries + 1)` loop.  `k` is the number of
attempts still available, `i` the index of the next attempt, `lastErr` the
`last_error` local.  A sleep of `2 ** attempt` seconds happens only when
further attempts remain (`attempt < max_retries`, i.e. `k ≠ 0` after the
current attempt). -/
def retryGo (f : Nat → AttemptResult) (maxRetries : Nat) :
    (k i : Nat) → (lastErr : String) → RetryOut
  | 0, _, lastErr =>
    { result := .error (exhaustMsg maxRetries lastErr), attemptsMade := 0, waits := [] }
  | k + 1, i, _ =>
    match f i with
    | .success t => { result := .ok t, attemptsMade := 1, waits := [] }
    | r =>
      let e := attemptErrorMsg r
      let out := retryGo f maxRetries k (i + 1) e
      { result := out.result,
        attemptsMade := out.attemptsMade + 1,
        waits := if k == 0 then out.waits else 2 ^ i :: out.waits }

/-- `ChatService._generate_response_with_retry` with `MAX_RETRIES = 2` as the
default retry budget. -/
def generateResponseWithRetry (f : Nat → AttemptResult) (maxRetries : Nat := 2) : RetryOut :=
  retryGo f maxRetries (maxRetries + 1) 0 ""

/-! ## String utilities shared by the embedding

Python's `str.strip()` removes the ASCII whitespace characters space, tab,
newline, carriage return, vertical tab and form feed from both ends (the
sources only ever hold ASCII-relevant data here). -/

def isPyWhitespace (c : Char) : Bool :=
  c == ' ' || c == '\t' || c == '\n' || c == '\r' ||
    c == Char.ofNat 11 || c == Char.ofNat 12

def pyStrip (s : String) : String :=
  String.mk (((s.data.dropWhile isPyWhitespace).reverse.dropWhile isPyWhitespace).reverse)

/-- ASCII lowercasing, `str.lower()` on the ASCII data these services
handle (list-based so that proofs can evaluate it). -/
def strLower (s : String) : String :=
  String.mk (s.data.map Char.toLower)

/-- Python `str.split()` with no argument: split on runs of whitespace,
dropping empty pieces; `acc` holds the current word reversed. -/
def pySplitAux : List Char → List Char → List String
  | [], acc => if acc = [] then [] else [String.mk acc.reverse]
  | c :: rest, acc =>
    if isPyWhitespace c then
      if acc = [] then pySplitAux rest []
      else String.mk acc.reverse :: pySplitAux rest []
    else pySplitAux rest (c :: acc)

def pySplit (s : String) : List String :=
  pySplitAux s.data []

/-! ## Content sanitisation

Embeds `SendMessageRequest.sanitize_content` (`schemas/chat.py`).  The
regex `[\x00-\x08\x0b\x0c\x0e-\x1f\x7f]` removes every ASCII control
character except tab (9), newline (10) and carriage return (13). -/

def isRemovedCtrl (c : Char) : Bool :=
  let n := c.toNat
  n ≤ 8 || n == 11 || n == 12 || (14 ≤ n && n ≤ 31) || n == 127

/-- Replace every maximal run of `target` of length `≥ threshold` by `keep`
copies; the run being accumulated so far is `run`.  Models the regex
substitutions `\n{4,} → '\n\n\n'` and `' '{10,} → '    '`. -/
def collapseRunsAux (target : Char) (threshold keep : Nat) :
    List Char → Nat → List Char
  | [], run => List.replicate (if threshold ≤ run then keep else run) target
  | c :: rest, run =>
    if c == target then collapseRunsAux target threshold keep rest (run + 1)
    else
      List.replicate (if threshold ≤ run then keep else run) target ++
        c :: collapseRunsAux target threshold keep rest 0

def collapseRuns (target : Char) (threshold keep : Nat) (s : String) : String :=
  String.mk (collapseRunsAux target threshold keep s.data 0)

/-- `SendMessageRequest.sanitize_content`: strip, reject empty, reject
over-length, drop control characters, collapse newline and space runs,
reject empty-after-sanitisation.  `.error` stands for the raised
`ValueError` (a 400 validation error at the route). -/
def sanitizeContent (v : String) : Except String String :=
  let v := pyStrip v
  if v = "" then .error "Message content cannot be empty or whitespace only"
  else if 4000 < v.length then
    .error "Message content exceeds maximum length of 4000 characters"
  else
    let v := String.mk (v.data.filter (fun c => !isRemovedCtrl c))
    let v := collapseRuns '\n' 4 3 v
    let v := collapseRuns ' ' 10 4 v
    if pyStrip v = "" then .error "Message content cannot be empty after sanitization"
    else .ok v

/-- A character the spec's words call for removing: a null byte or a control
character other than newline and tab.  (ASCII control characters are
0–31 and 127.)  This is the claimed behaviour, written from the claim's
words for comparison with `isRemovedCtrl`. -/
def isClaimRemovedCtrl (c : Char) : Bool :=
  let n := c.toNat
  (n ≤ 31 && !(n == 9) && !(n == 10)) || n == 127

/-- The sanitisation pipeline exactly as the claim words it: trim, remove
null bytes and control characters other than newline and tab, collapse runs
of four or more newlines to three, collapse runs of ten or more spaces to
four. -/
def claimSanitize (v : String) : String :=
  collapseRuns ' ' 10 4
    (collapseRuns '\n' 4 3
      (String.mk ((pyStrip v).data.filter (fun c => !isClaimRemovedCtrl c))))

/-- The amended pipeline: identical to the claim's, except that carriage
return (13) also survives the control-character removal, and the service
layer strips the result once more before persisting it. -/
def amendedSanitize (v : String) : String :=
  pyStrip
    (collapseRuns ' ' 10 4
      (collapseRuns '\n' 4 3
        (String.mk ((pyStrip v).data.filter
          (fun c => !(isClaimRemovedCtrl c && !(c.toNat == 13)))))))

/-! ## The message record

`Message` rows (`models/message.py`): owner, role, text content, creation
timestamp.  Timestamps are modelled as naturals; ids and the metadata map
play no part in the claims. -/

structure Msg where
  user_id : Nat
  role : String
  content : String
  created_at : Nat
deriving DecidableEq, Repr

/-! ## History window selection under a token budget

Embeds `ChatService._get_recent_messages_with_budget` (`chat_service.py`).
The backend's `count_tokens` capability is a parameter `ct`; the fetched
list stands for the newest-first result of the `LIMIT 100` query. -/

def truncateContent (s : String) : String :=
  if 2000 < s.length then String.mk (s.data.take 2000) ++ "... [truncated]" else s

/-- The accumulation loop: role/content pairs are appended while the running
token estimate stays within the (already clamped) budget; the first turn
that would overflow stops accumulation (`break`). -/
def selectLoop (ct : String → Nat) (budget : Nat) :
    List Msg → Nat → List (String × String)
  | [], _ => []
  | m :: rest, tokenCount =>
    let content := truncateContent m.content
    let msgTokens := ct content + 10
    if budget < tokenCount + msgTokens then []
    else (m.role, content) :: selectLoop ct budget rest (tokenCount + msgTokens)

def getRecentMessagesWithBudget (ct : String → Nat) (fetched : List Msg)
    (maxTokens : Nat) : List (String × String) :=
  let budget := max 100 maxTokens
  (selectLoop ct budget fetched 0).reverse

/-- The estimated token sum of a selected window, per the claim: per-message
`count_tokens` of the (possibly truncated) content plus 10 per message. -/
def estTokenSum (ct : String → Nat) (sel : List (String × String)) : Nat :=
  (sel.map (fun rc => ct rc.2 + 10)).sum

/-! ## Message processing

Embeds `ChatService.process_message` (`chat_service.py`).  The database
session is a pair (committed messages, typing flag); `flush` makes pending
rows visible to the transaction only, `commit` publishes them, `rollback`
discards them.  Context assembly (`_build_context`) only reads messages and
so is not part of the persistence state; the generation backend enters
through the per-attempt outcome function `f`, and `commitOk` says whether
the final `db.commit()` succeeds.  The `finally` block always runs
`redis.set_typing(user_id, False)` (which deletes the marker). -/

def fallbackApology : String :=
  "I apologize, but I couldn't generate a response. Could you please try again?"

structure ProcOut where
  committed : List Msg
  typing : Bool
  result : Except String (Msg × Msg)

def processMessage (committed : List Msg) (typing0 : Bool) (uid : Nat)
    (content0 : String) (f : Nat → AttemptResult) (commitOk : Bool)
    (now : Nat) : ProcOut :=
  -- defence-in-depth validation, before the typing marker is touched
  if content0 = "" then ⟨committed, typing0, .error "Message content is required"⟩
  else
    let content := pyStrip content0
    if content = "" then ⟨committed, typing0, .error "Message content cannot be empty"⟩
    else if 4000 < content.length then
      ⟨committed, typing0, .error "Message exceeds maximum length of 4000 characters"⟩
    else
      -- typing marker set; everything below runs under try/finally
      let userMsg : Msg := ⟨uid, "user", content, now⟩
      match (generateResponseWithRetry f).result with
      | .error e =>
        -- rollback discards the flushed user row; finally clears typing
        ⟨committed, false, .error e⟩
      | .ok text =>
        let text := if pyStrip text = "" then fallbackApology else text
        let text := if 10000 < text.length then String.mk (text.data.take 10000) ++ "..." else text
        let asstMsg : Msg := ⟨uid, "assistant", text, now⟩
        if commitOk then ⟨committed ++ [userMsg, asstMsg], false, .ok (userMsg, asstMsg)⟩
        else ⟨committed, false, .error "persistence failure"⟩

/-- The `/send` route (`api/routes.py`): pydantic validates and sanitises the
body before the handler runs, so a schema `ValueError` leaves every piece of
state untouched; otherwise the sanitised content is handed to
`ChatService.process_message`.  (Rate limiting rejects before any state
change as well and is orthogonal to the persisted content.) -/
def sendMessage (committed : List Msg) (typing0 : Bool) (uid : Nat)
    (raw : String) (f : Nat → AttemptResult) (commitOk : Bool)
    (now : Nat) : ProcOut :=
  match sanitizeContent raw with
  | .error e => ⟨committed, typing0, .error e⟩
  | .ok content => processMessage committed typing0 uid content f commitOk now

/-! ## Stable descending sort

Python's `list.sort(..., reverse=True)` is a stable descending sort: an
element inserted from the left passes only strictly greater keys, so equal
keys keep their original order. -/

def insertScoreDesc {α β : Type} [LinearOrder β] (key : α → β) (x : α) :
    List α → List α
  | [] => [x]
  | y :: ys => if key x < key y then y :: insertScoreDesc key x ys else x :: y :: ys

def sortScoreDesc {α β : Type} [LinearOrder β] (key : α → β) : List α → List α
  | [] => []
  | x :: xs => insertScoreDesc key x (sortScoreDesc key xs)

/-! ## Relevance scoring: policy snippets

Embeds `ProtocolService` (`protocol_service.py`).  `_extract_keywords` runs
`re.findall(r'\b[a-z]+\b', text)` over the lowercased message: a match is a
maximal run of word characters (`[a-z0-9_]` once lowercased) consisting
purely of letters, the `\b` boundaries ruling out letter runs adjacent to a
digit or underscore.  The matches then lose stop words and words of length
`≤ 2`, and `set(...)` deduplicates. -/

def isWordChar (c : Char) : Bool :=
  ('a' ≤ c && c ≤ 'z') || ('A' ≤ c && c ≤ 'Z') || ('0' ≤ c && c ≤ '9') || c == '_'

/-- Maximal runs of word characters; `acc` accumulates the current run in
reverse. -/
def wordRunsAux : List Char → List Char → List (List Char)
  | [], acc => if acc = [] then [] else [acc.reverse]
  | c :: rest, acc =>
    if isWordChar c then wordRunsAux rest (c :: acc)
    else if acc = [] then wordRunsAux rest []
    else acc.reverse :: wordRunsAux rest []

def isLowerAlpha (c : Char) : Bool := 'a' ≤ c && c ≤ 'z'

def stopWords : List String :=
  ["i", "me", "my", "we", "our", "you", "your", "he", "she", "it",
   "they", "them", "what", "which", "who", "whom", "this", "that",
   "am", "is", "are", "was", "were", "be", "been", "being",
   "have", "has", "had", "do", "does", "did", "will", "would",
   "could", "should", "may", "might", "must", "shall",
   "a", "an", "the", "and", "but", "if", "or", "because", "as",
   "of", "at", "by", "for", "with", "about", "to", "from", "in",
   "on", "up", "out", "off", "over", "under", "again", "further",
   "then", "once", "here", "there", "when", "where", "why", "how",
   "all", "each", "few", "more", "most", "other", "some", "such",
   "no", "nor", "not", "only", "own", "same", "so", "than", "too",
   "very", "just", "can", "now", "also", "like", "get", "got",
   "really", "feel", "feeling", "think", "know", "want", "need"]

/-- `ProtocolService._extract_keywords` applied to already-lowercased text. -/
def extractKeywords (text : String) : List String :=
  let words := ((wordRunsAux text.data []).filter
    (fun r => r.all isLowerAlpha)).map String.mk
  (words.filter (fun w => !stopWords.contains w && 2 < w.length)).dedup

/-- The query word set used to score policy snippets against `message`
(`find_relevant_protocols` lowercases before extracting). -/
def protoQueryWords (message : String) : List String :=
  extractKeywords (strLower message)

structure ProtocolRec where
  name : String
  category : String
  keywords : List String
  content : String
  priority : Int
deriving DecidableEq, Repr

/-- `len(message_words & protocol_keywords)`: both operands are sets, so
deduplicate before counting. -/
def overlapCount (queryWords otherWords : List String) : Nat :=
  (queryWords.dedup.filter (fun w => otherWords.contains w)).length

def protocolScore (ov : Nat) (priority : Int) : ℚ :=
  (ov : ℚ) * (1 + (priority : ℚ) * (1 / 10))

/-- The `scored_protocols` list: only candidates with positive overlap enter,
scored as `overlap * (1 + priority * 0.1)`. -/
def scoredProtocols (queryWords : List String) (protocols : List ProtocolRec) :
    List (ProtocolRec × ℚ) :=
  protocols.filterMap (fun p =>
    let ov := overlapCount queryWords (p.keywords.map strLower)
    if 0 < ov then some (p, protocolScore ov p.priority) else none)

/-- `ProtocolService.find_relevant_protocols`: the `protocols` argument
stands for the full catalog as fetched (priority-descending).  Returns the
ranked records themselves in place of the result dicts. -/
def findRelevantProtocols (protocols : List ProtocolRec) (message : String)
    (limit : Nat := 3) : List ProtocolRec :=
  let messageWords := protoQueryWords message
  if messageWords = [] then []
  else ((sortScoreDesc Prod.snd (scoredProtocols messageWords protocols)).take
    limit).map Prod.fst

/-! ## Relevance scoring: long-term facts (memories)

Embeds `MemoryService.get_relevant_memories` (`memory_service.py`).  The
`memories` argument stands for the fetched candidate set (`LIMIT limit * 2`,
importance- then recency-ordered); the `last_accessed_at` bump is a
side effect on rows already selected and does not change the result. -/

structure MemoryRec where
  memory_type : String
  content : String
  importance : ℚ
deriving DecidableEq, Repr

/-- `set(query.lower().split())`: the word set used to score facts — note
no stop-word removal happens on this path. -/
def memoryQueryWords (query : String) : List String :=
  (pySplit (strLower query)).dedup

def memoryScore (queryWords : List String) (m : MemoryRec) : ℚ :=
  (overlapCount queryWords (pySplit (strLower m.content)) : ℚ) + m.importance

/-- The `scored_memories` list: every fetched candidate is scored. -/
def scoredMemories (queryWords : List String) (memories : List MemoryRec) :
    List (MemoryRec × ℚ) :=
  memories.map (fun m => (m, memoryScore queryWords m))

def getRelevantMemories (memories : List MemoryRec) (query : String)
    (limit : Nat := 5) : List MemoryRec :=
  if memories = [] then []
  else
    let queryWords := memoryQueryWords query
    ((sortScoreDesc Prod.snd (scoredMemories queryWords memories)).take
      limit).map Prod.fst

/-! ## Fact extraction and deduplication

Embeds the per-item persistence loop of
`MemoryService.extract_and_save_memories` (`memory_service.py`).  The
`items` list stands for the parsed `memories` array (parse and backend
failures leave the store untouched and are outside the claims).  The
duplicate check issues a `SELECT` against the database; the session is
created with `autoflush=False` (`database.py`), so rows `add`ed earlier in
the same batch are not yet visible to it — dedup compares against
`existing`, the owner's facts as of the start of the call, only. -/

structure FactRec where
  memory_type : String
  content : String
  importance : ℚ
deriving DecidableEq, Repr

/-- One parsed item of the extraction response; a missing `importance` key
is `none` and `mem.get("importance", 0.5)` then defaults to `0.5`.  Missing
`type`/`content` keys behave like empty strings under Python truthiness. -/
structure ExtractedItem where
  itemType : String
  content : String
  importance : Option ℚ
deriving DecidableEq, Repr

def clampImportance (x : Option ℚ) : ℚ :=
  min 1 (max 0 (x.getD (1 / 2)))

/-- The rows `add`ed by the loop, in order. -/
def newFactsFrom (existing : List FactRec) (items : List ExtractedItem) :
    List FactRec :=
  items.filterMap (fun it =>
    if it.content ≠ "" ∧ it.itemType ≠ "" then
      if existing.any (fun f => f.content == it.content) then none
      else some ⟨it.itemType, it.content, clampImportance it.importance⟩
    else none)

/-- The owner's fact store after `db.commit()`. -/
def extractAndSaveMemories (existing : List FactRec)
    (items : List ExtractedItem) : List FactRec :=
  existing ++ newFactsFrom existing items

/-! ## Cursor-based history pagination

Embeds `ChatService.get_history` (`chat_service.py`).  The `store` argument
stands for the `messages` table; the SQL query filters by owner and cursor,
orders newest-first, and fetches `limit + 1` rows to detect `has_more`. -/

structure HistoryPage where
  messages : List Msg
  hasMore : Bool
  nextCursor : Option Nat
deriving DecidableEq, Repr

def getHistory (store : List Msg) (uid : Nat) (cursor : Option Nat)
    (limit : Nat) : HistoryPage :=
  let limit := max 1 (min limit 50)
  let owned := store.filter (fun m => m.user_id == uid)
  let filtered := match cursor with
    | some c => owned.filter (fun m => m.created_at < c)
    | none => owned
  let fetched := (sortScoreDesc Msg.created_at filtered).take (limit + 1)
  let hasMore := limit < fetched.length
  let msgs := if hasMore then fetched.take limit else fetched
  let nextCursor := if hasMore then msgs.getLast?.map Msg.created_at else none
  ⟨msgs.reverse, hasMore, nextCursor⟩

/-- The claim's traversal: fetch the first page with no cursor, then follow
`next_cursor` while `has_more` holds, concatenating the returned turns.
`fuel` bounds the number of round trips; `none` means the traversal did not
terminate within the given fuel. -/
def followPages (store : List Msg) (uid : Nat) (limit : Nat) :
    Option Nat → Nat → Option (List Msg)
  | _, 0 => none
  | cursor, fuel + 1 =>
    let page := getHistory store uid cursor limit
    if page.hasMore then
      (followPages store uid limit page.nextCursor fuel).map
        (fun rest => page.messages ++ rest)
    else some page.messages

/-! ## Lemmas about the stable descending sort -/

theorem insertScoreDesc_perm {α β : Type} [LinearOrder β] (key : α → β) (x : α) :
    ∀ l : List α, (insertScoreDesc key x l).Perm (x :: l)
  | [] => List.Perm.refl _
  | y :: ys => by
    unfold insertScoreDesc
    split
    · exact ((insertScoreDesc_perm key x ys).cons y).trans (List.Perm.swap x y ys)
    · exact List.Perm.refl _

theorem sortScoreDesc_perm {α β : Type} [LinearOrder β] (key : α → β) :
    ∀ l : List α, (sortScoreDesc key l).Perm l
  | [] => List.Perm.refl _
  | x :: xs =>
    (insertScoreDesc_perm key x (sortScoreDesc key xs)).trans
      ((sortScoreDesc_perm key xs).cons x)

theorem insertScoreDesc_pairwise {α β : Type} [LinearOrder β] (key : α → β) (x : α) :
    ∀ l : List α, l.Pairwise (fun a b => key b ≤ key a) →
      (insertScoreDesc key x l).Pairwise (fun a b => key b ≤ key a)
  | [], _ => List.pairwise_singleton _ _
  | y :: ys, h => by
    unfold insertScoreDesc
    rcases List.pairwise_cons.mp h with ⟨hy, hys⟩
    split
    · refine List.pairwise_cons.mpr ⟨?_, insertScoreDesc_pairwise key x ys hys⟩
      intro b hb
      rcases List.mem_cons.mp (((insertScoreDesc_perm key x ys).mem_iff).mp hb) with hb | hb
      · subst hb; exact le_of_lt (by assumption)
      · exact hy b hb
    · refine List.pairwise_cons.mpr ⟨?_, h⟩
      intro b hb
      rcases List.mem_cons.mp hb with hb | hb
      · subst hb; exact le_of_not_lt (by assumption)
      · exact le_trans (hy b hb) (le_of_not_lt (by assumption))

theorem sortScoreDesc_pairwise {α β : Type} [LinearOrder β] (key : α → β) :
    ∀ l : List α, (sortScoreDesc key l).Pairwise (fun a b => key b ≤ key a)
  | [] => List.Pairwise.nil
  | x :: xs =>
    insertScoreDesc_pairwise key x (sortScoreDesc key xs) (sortScoreDesc_pairwise key xs)

/-! ## C4: token-budget allocation bounds -/

/-- C4 counterexample: with a total context limit of 2000 and a response
reserve of 1000 the fixed reserves exceed the limit, and the floored
allowance 1000 is strictly greater than `total limit − fixed reserves`
(which is −500), so the claimed upper bound fails. -/
theorem allocator_upper_bound_fails :
    historyAllowance 2000 1000 = 1000 ∧
      ¬ historyAllowance 2000 1000 ≤ 2000 - (1500 + 1000) := by
  constructor <;> decide

/-- C4 (amended): for every total context limit and response reserve, the
history allowance is at least the configured minimum of 1000 and strictly
positive; it equals `total limit − fixed reserves` — and hence respects that
as an upper bound — whenever that difference is at least the minimum. -/
theorem allocator_allowance_bounds (maxContextTokens maxResponseTokens : Int) :
    1000 ≤ historyAllowance maxContextTokens maxResponseTokens ∧
      0 < historyAllowance maxContextTokens maxResponseTokens ∧
      (1000 ≤ maxContextTokens - (1500 + maxResponseTokens) →
        historyAllowance maxContextTokens maxResponseTokens =
          maxContextTokens - (1500 + maxResponseTokens)) := by
  unfold historyAllowance
  refine ⟨le_max_left _ _, lt_of_lt_of_le (by norm_num) (le_max_left _ _), fun h => ?_⟩
  exact max_eq_right h

/-- C4 witness: at the shipped configuration (`MAX_CONTEXT_TOKENS = 8000`,
`MAX_RESPONSE_TOKENS = 1000`) the allowance is 5500, within both bounds. -/
theorem allocator_allowance_bounds_witness :
    1000 ≤ historyAllowance 8000 1000 ∧ 0 < historyAllowance 8000 1000 ∧
      (1000 ≤ (8000 : Int) - (1500 + 1000) →
        historyAllowance 8000 1000 = 8000 - (1500 + 1000)) :=
  allocator_allowance_bounds 8000 1000

/-! ## C3: retry/backoff discipline -/

def isFailureAttempt : AttemptResult → Bool
  | .success _ => false
  | _ => true

theorem retryGo_attempts_le (f : Nat → AttemptResult) (maxRetries : Nat) :
    ∀ k i lastErr, (retryGo f maxRetries k i lastErr).attemptsMade ≤ k
  | 0, _, _ => Nat.le_refl _
  | k + 1, i, lastErr => by
    unfold retryGo
    cases hf : f i with
    | success t => simp
    | timeout =>
      simpa using Nat.succ_le_succ (retryGo_attempts_le f maxRetries k (i + 1) _)
    | failure m =>
      simpa using Nat.succ_le_succ (retryGo_attempts_le f maxRetries k (i + 1) _)

theorem retryGo_all_fail (f : Nat → AttemptResult) (maxRetries : Nat)
    (hfail : ∀ j, isFailureAttempt (f j) = true) :
    ∀ k i lastErr, retryGo f maxRetries (k + 1) i lastErr =
      ⟨.error (exhaustMsg maxRetries (attemptErrorMsg (f (i + k)))), k + 1,
        (List.range' i k).map (2 ^ ·)⟩ := by
  intro k
  induction k with
  | zero =>
    intro i lastErr
    unfold retryGo
    cases hf : f i with
    | success t => exact absurd (hfail i) (by simp [isFailureAttempt, hf])
    | timeout => simp [retryGo, hf]
    | failure m => simp [retryGo, hf]
  | succ k ih =>
    intro i lastErr
    unfold retryGo
    cases hf : f i with
    | success t => exact absurd (hfail i) (by simp [isFailureAttempt, hf])
    | timeout =>
      dsimp only
      rw [ih (i + 1)]
      have hik : i + 1 + k = i + (k + 1) := by omega
      simp [List.range'_succ, hik]
    | failure m =>
      dsimp only
      rw [ih (i + 1)]
      have hik : i + 1 + k = i + (k + 1) := by omega
      simp [List.range'_succ, hik]

/-- C3: the retrying wrapper makes at most `max_retries + 1` attempts; a
backend failing transiently on attempts 0 and 1 and succeeding on attempt 2
returns the success after backoff waits of exactly 1s then 2s in 3 attempts
(the default budget); and an always-failing backend exhausts after exactly
`max_retries + 1` attempts with backoff waits `2^0, …, 2^(max_retries-1)`,
raising a generation-exhausted error that carries the last underlying error
message. -/
theorem retry_wrapper_behaviour (f g : Nat → AttemptResult) (t : String)
    (maxRetries : Nat)
    (hf0 : isFailureAttempt (f 0) = true) (hf1 : isFailureAttempt (f 1) = true)
    (hf2 : f 2 = .success t)
    (hg : ∀ j, isFailureAttempt (g j) = true) :
    (∀ h : Nat → AttemptResult,
        (generateResponseWithRetry h maxRetries).attemptsMade ≤ maxRetries + 1) ∧
      generateResponseWithRetry f = ⟨.ok t, 3, [1, 2]⟩ ∧
      generateResponseWithRetry g maxRetries =
        ⟨.error (exhaustMsg maxRetries (attemptErrorMsg (g maxRetries))),
          maxRetries + 1, (List.range maxRetries).map (2 ^ ·)⟩ := by
  refine ⟨fun h => retryGo_attempts_le h maxRetries _ _ _, ?_, ?_⟩
  · show retryGo f 2 (2 + 1) 0 "" = _
    cases h0 : f 0 with
    | success u => exact absurd hf0 (by simp [isFailureAttempt, h0])
    | timeout =>
      rw [retryGo, h0]
      show RetryOut.mk _ _ _ = _
      cases h1 : f 1 with
      | success u => exact absurd hf1 (by simp [isFailureAttempt, h1])
      | timeout =>
        rw [retryGo, h1]; show RetryOut.mk _ _ _ = _; norm_num
        rw [retryGo, hf2]; simp
      | failure m =>
        rw [retryGo, h1]; show RetryOut.mk _ _ _ = _; norm_num
        rw [retryGo, hf2]; simp
    | failure m =>
      rw [retryGo, h0]
      show RetryOut.mk _ _ _ = _
      cases h1 : f 1 with
      | success u => exact absurd hf1 (by simp [isFailureAttempt, h1])
      | timeout =>
        rw [retryGo, h1]; show RetryOut.mk _ _ _ = _; norm_num
        rw [retryGo, hf2]; simp
      | failure m' =>
        rw [retryGo, h1]; show RetryOut.mk _ _ _ = _; norm_num
        rw [retryGo, hf2]; simp
  · show retryGo g maxRetries (maxRetries + 1) 0 "" = _
    rw [retryGo_all_fail g maxRetries hg maxRetries 0 ""]
    simp [List.range_eq_range']

/-- C3 witness: a backend failing with a timeout then a connection error
then succeeding, and a backend that always reports "boom". -/
theorem retry_wrapper_behaviour_witness :
    (∀ h : Nat → AttemptResult, (generateResponseWithRetry h 2).attemptsMade ≤ 2 + 1) ∧
      generateResponseWithRetry
        (fun i => if i == 0 then .timeout else
          if i == 1 then .failure "connection error" else .success "All good!") =
        ⟨.ok "All good!", 3, [1, 2]⟩ ∧
      generateResponseWithRetry (fun _ => .failure "boom") 2 =
        ⟨.error (exhaustMsg 2 (attemptErrorMsg (.failure "boom"))), 2 + 1,
          (List.range 2).map (2 ^ ·)⟩ :=
  retry_wrapper_behaviour
    (fun i => if i == 0 then .timeout else
      if i == 1 then .failure "connection error" else .success "All good!")
    (fun _ => .failure "boom") "All good!" 2 (by decide) (by decide) (by decide)
    (fun _ => rfl)

/-! ## C5: stop-word removal before scoring -/

/-- C5 counterexample: the word set used to score long-term facts is the raw
lowercased whitespace split of the query, so for the query `"i have the
flu"` it contains the stop word `"the"` (and that word earns overlap when a
fact mentions it) — the claim that both corpora score with stop words
removed fails on the facts corpus. -/
theorem memory_query_keeps_stop_words :
    "the" ∈ memoryQueryWords "i have the flu" ∧ "the" ∈ stopWords ∧
      0 < overlapCount (memoryQueryWords "i have the flu") (pySplit "all about the flu") := by
  refine ⟨by decide, by decide, by decide⟩

/-- C5 (amended): the minimal stop-word set is removed from the query before
scoring for the policy-snippet corpus only; the facts corpus scores against
the raw lowercased whitespace-split query words, which can retain stop
words. -/
theorem stop_words_removed_for_snippets_only (message : String) :
    (∀ w ∈ protoQueryWords message, w ∉ stopWords) ∧
      "i" ∈ memoryQueryWords "i have the flu" := by
  constructor
  · intro w hw
    unfold protoQueryWords extractKeywords at hw
    rw [List.mem_dedup] at hw
    rcases List.mem_filter.mp hw with ⟨-, hcond⟩
    simp only [Bool.and_eq_true, Bool.not_eq_true'] at hcond
    simpa using hcond.1
  · decide

/-- C5 witness: on the message `"I have the flu"` every snippet-scoring
keyword avoids the stop-word list, while the facts side keeps `"i"`. -/
theorem stop_words_removed_for_snippets_only_witness :
    (∀ w ∈ protoQueryWords "I have the flu", w ∉ stopWords) ∧
      "i" ∈ memoryQueryWords "i have the flu" :=
  stop_words_removed_for_snippets_only "I have the flu"

/-! ## C6: zero-overlap candidates — snippets excluded, facts retained -/

/-- A fact sharing no word with the query `"completely unrelated query"`. -/
def zeroOverlapFact : MemoryRec := ⟨"preference", "loves hiking", 9 / 10⟩

/-- C6: a policy snippet with zero keyword overlap never appears in the
returned ranking; for the facts corpus every fetched candidate is scored and
participates, and a fact with zero overlap can be returned on importance
alone (witnessed by `zeroOverlapFact`). -/
theorem zero_overlap_snippets_excluded_facts_retained (message : String)
    (protocols : List ProtocolRec) (memories : List MemoryRec)
    (queryWords : List String) (limit : Nat) :
    (∀ p ∈ findRelevantProtocols protocols message limit,
        0 < overlapCount (protoQueryWords message) (p.keywords.map strLower)) ∧
      (scoredMemories queryWords memories).map Prod.fst = memories ∧
      getRelevantMemories [zeroOverlapFact] "completely unrelated query" 5 =
        [zeroOverlapFact] ∧
      overlapCount (memoryQueryWords "completely unrelated query")
        (pySplit (strLower zeroOverlapFact.content)) = 0 := by
  refine ⟨?_, ?_, ?_, by decide⟩
  · intro p hp
    unfold findRelevantProtocols at hp
    by_cases hmw : protoQueryWords message = []
    · simp [hmw] at hp
    · simp only [hmw, if_neg, reduceIte] at hp
      rcases List.mem_map.mp hp with ⟨⟨q, s⟩, hmem, hq⟩
      have hscored : (q, s) ∈ scoredProtocols (protoQueryWords message) protocols :=
        ((sortScoreDesc_perm Prod.snd _).mem_iff).mp (List.mem_of_mem_take hmem)
      rcases List.mem_filterMap.mp hscored with ⟨p', _, heq⟩
      by_cases hov : 0 < overlapCount (protoQueryWords message) (p'.keywords.map strLower)
      · rw [if_pos hov] at heq
        cases heq
        cases hq
        exact hov
      · rw [if_neg hov] at heq
        cases heq
  · unfold scoredMemories
    rw [List.map_map]
    exact List.map_id memories
  · simp [getRelevantMemories, scoredMemories, memoryQueryWords, sortScoreDesc,
      insertScoreDesc, zeroOverlapFact]

/-- C6 witness: concrete catalogs — the zero-overlap protocol `"P2"` is
never returned while both facts participate in the ranking. -/
theorem zero_overlap_snippets_excluded_facts_retained_witness :
    (∀ p ∈ findRelevantProtocols
        [⟨"P1", "medical", ["flu"], "c", 5⟩, ⟨"P2", "medical", ["zzz"], "c", 9⟩]
        "the flu shot" 3,
        0 < overlapCount (protoQueryWords "the flu shot")
          (p.keywords.map strLower)) ∧
      (scoredMemories (memoryQueryWords "the flu shot")
        [⟨"goal", "run a marathon", 1 / 2⟩, zeroOverlapFact]).map Prod.fst =
        [⟨"goal", "run a marathon", 1 / 2⟩, zeroOverlapFact] ∧
      getRelevantMemories [zeroOverlapFact] "completely unrelated query" 5 =
        [zeroOverlapFact] ∧
      overlapCount (memoryQueryWords "completely unrelated query")
        (pySplit (strLower zeroOverlapFact.content)) = 0 :=
  zero_overlap_snippets_excluded_facts_retained "the flu shot"
    [⟨"P1", "medical", ["flu"], "c", 5⟩, ⟨"P2", "medical", ["zzz"], "c", 9⟩]
    [⟨"goal", "run a marathon", 1 / 2⟩, zeroOverlapFact]
    (memoryQueryWords "the flu shot") 3

/-! ## C2: history window token budget -/

theorem selectLoop_sum_le (ct : String → Nat) (budget : Nat) :
    ∀ (msgs : List Msg) (tokenCount : Nat), tokenCount ≤ budget →
      tokenCount + estTokenSum ct (selectLoop ct budget msgs tokenCount) ≤ budget
  | [], tokenCount, h => by simpa [selectLoop, estTokenSum] using h
  | m :: rest, tokenCount, h => by
    unfold selectLoop
    dsimp only
    split
    · simpa [estTokenSum] using h
    · have hle : tokenCount + (ct (truncateContent m.content) + 10) ≤ budget := by omega
      have := selectLoop_sum_le ct budget rest
        (tokenCount + (ct (truncateContent m.content) + 10)) hle
      simp only [estTokenSum, List.map_cons, List.sum_cons] at *
      omega

theorem selectLoop_mem (ct : String → Nat) (budget : Nat) :
    ∀ (msgs : List Msg) (tokenCount : Nat),
      ∀ rc ∈ selectLoop ct budget msgs tokenCount,
        ∃ m ∈ msgs, rc = (m.role, truncateContent m.content)
  | [], _, rc, h => absurd h (by simp [selectLoop])
  | m :: rest, tokenCount, rc, h => by
    unfold selectLoop at h
    dsimp only at h
    split at h
    · exact absurd h (by simp)
    · rcases List.mem_cons.mp h with h | h
      · exact ⟨m, List.mem_cons_self m rest, h⟩
      · rcases selectLoop_mem ct budget rest _ rc h with ⟨m', hm', hrc⟩
        exact ⟨m', List.mem_cons_of_mem m hm', hrc⟩

/-- C2 counterexample: with a positive allowance of 50 and a backend whose
token count is constantly 51, the single fetched message costs 61 estimated
tokens — more than the allowance — yet it is selected (the builder clamps
the budget up to 100), so the window's estimated sum 61 exceeds the
allowance and the most-recent-message-exceeds-allowance case is not empty. -/
theorem history_window_exceeds_small_allowance :
    getRecentMessagesWithBudget (fun _ => 51) [⟨1, "user", "hi", 0⟩] 50 =
        [("user", "hi")] ∧
      estTokenSum (fun _ => 51)
        (getRecentMessagesWithBudget (fun _ => 51) [⟨1, "user", "hi", 0⟩] 50) = 61 ∧
      ¬ estTokenSum (fun _ => 51)
        (getRecentMessagesWithBudget (fun _ => 51) [⟨1, "user", "hi", 0⟩] 50) ≤ 50 := by
  refine ⟨by decide, by decide, by decide⟩

/-- C2 (amended): the selected window's estimated token sum (per-message
`count_tokens` of the possibly-truncated content plus 10) never exceeds
`max 100 allowance`, hence never exceeds the allowance whenever the
allowance is at least the clamp floor 100; every selected entry is the
truncation of a fetched message, messages over 2000 characters carrying the
visible `"... [truncated]"` marker; and when the allowance is at least 100
and the most recent message alone costs more than it, the selected set is
empty. -/
theorem history_window_budget (ct : String → Nat) (fetched : List Msg)
    (maxTokens : Nat) :
    estTokenSum ct (getRecentMessagesWithBudget ct fetched maxTokens) ≤
        max 100 maxTokens ∧
      (100 ≤ maxTokens →
        estTokenSum ct (getRecentMessagesWithBudget ct fetched maxTokens) ≤ maxTokens) ∧
      (∀ rc ∈ getRecentMessagesWithBudget ct fetched maxTokens,
        ∃ m ∈ fetched, rc = (m.role, truncateContent m.content) ∧
          (2000 < m.content.length →
            rc.2 = String.mk (m.content.data.take 2000) ++ "... [truncated]")) ∧
      (∀ m₀ rest, fetched = m₀ :: rest → 100 ≤ maxTokens →
        maxTokens < ct (truncateContent m₀.content) + 10 →
        getRecentMessagesWithBudget ct fetched maxTokens = []) := by
  have hsum : estTokenSum ct (getRecentMessagesWithBudget ct fetched maxTokens) ≤
      max 100 maxTokens := by
    have := selectLoop_sum_le ct (max 100 maxTokens) fetched 0 (Nat.zero_le _)
    unfold getRecentMessagesWithBudget estTokenSum at *
    rw [List.map_reverse, List.sum_reverse]
    omega
  refine ⟨hsum, ?_, ?_, ?_⟩
  · intro h100
    calc estTokenSum ct (getRecentMessagesWithBudget ct fetched maxTokens) ≤
        max 100 maxTokens := hsum
      _ = maxTokens := max_eq_right h100
  · intro rc hrc
    rw [getRecentMessagesWithBudget, List.mem_reverse] at hrc
    rcases selectLoop_mem ct (max 100 maxTokens) fetched 0 rc hrc with ⟨m, hm, heq⟩
    refine ⟨m, hm, heq, fun hlong => ?_⟩
    rw [heq]
    simp [truncateContent, hlong]
  · intro m₀ rest hf h100 hcost
    subst hf
    unfold getRecentMessagesWithBudget selectLoop
    dsimp only
    rw [max_eq_right h100, if_pos (by omega)]
    rfl

/-- C2 witness: allowance 150, one short message costing 40 tokens — the sum
40 stays within the allowance, and a variant allowance check at the clamp
boundary. -/
theorem history_window_budget_witness :
    estTokenSum (fun s => s.length) (getRecentMessagesWithBudget
        (fun s => s.length) [⟨1, "user", "hello diary", 7⟩] 150) ≤
        max 100 150 ∧
      (100 ≤ 150 →
        estTokenSum (fun s => s.length) (getRecentMessagesWithBudget
          (fun s => s.length) [⟨1, "user", "hello diary", 7⟩] 150) ≤ 150) ∧
      (∀ rc ∈ getRecentMessagesWithBudget (fun s => s.length)
          [⟨1, "user", "hello diary", 7⟩] 150,
        ∃ m ∈ [Msg.mk 1 "user" "hello diary" 7],
          rc = (m.role, truncateContent m.content) ∧
          (2000 < m.content.length →
            rc.2 = String.mk (m.content.data.take 2000) ++ "... [truncated]")) ∧
      (∀ m₀ rest, [Msg.mk 1 "user" "hello diary" 7] = m₀ :: rest → 100 ≤ 150 →
        150 < (fun s : String => s.length) (truncateContent m₀.content) + 10 →
        getRecentMessagesWithBudget (fun s => s.length)
          [⟨1, "user", "hello diary", 7⟩] 150 = []) :=
  history_window_budget (fun s => s.length) [⟨1, "user", "hello diary", 7⟩] 150

/-! ## C8: fact-extraction deduplication and importance clamping -/

/-- The per-owner uniqueness invariant: no two stored facts share identical
text content. -/
def uniqueContents (facts : List FactRec) : Prop :=
  facts.Pairwise (fun a b => a.content ≠ b.content)

/-- C8 counterexample: a single extraction batch containing the same fact
twice stores it twice — the duplicate `SELECT` runs against a session with
`autoflush=False`, so the first pending row is invisible to the second
item's check and the uniqueness invariant is broken. -/
theorem intra_batch_duplicates_persisted :
    ¬ uniqueContents (extractAndSaveMemories []
      [⟨"health_condition", "Has Type 2 diabetes", none⟩,
       ⟨"health_condition", "Has Type 2 diabetes", none⟩]) := by
  intro h
  rcases List.pairwise_cons.mp h with ⟨hhead, -⟩
  exact hhead _ (by simp [extractAndSaveMemories, newFactsFrom]) rfl

/-- C8 (amended): the duplicate check compares each item against the facts
that existed when the call began, so every persisted fact is new relative to
the pre-call store; each persisted importance is clamped to [0, 1], missing
importances defaulting to 1/2; and the per-owner uniqueness invariant is
preserved provided the batch itself contains no two items with identical
content. -/
theorem extraction_dedup_and_clamp (existing : List FactRec)
    (items : List ExtractedItem)
    (hex : uniqueContents existing)
    (hit : items.Pairwise (fun a b => a.content ≠ b.content)) :
    uniqueContents (extractAndSaveMemories existing items) ∧
      (∀ f ∈ newFactsFrom existing items,
        0 ≤ f.importance ∧ f.importance ≤ 1) ∧
      (∀ f ∈ newFactsFrom existing items, ∀ g ∈ existing, g.content ≠ f.content) ∧
      clampImportance none = 1 / 2 := by
  have hmem : ∀ f ∈ newFactsFrom existing items,
      (∃ it ∈ items, f = ⟨it.itemType, it.content, clampImportance it.importance⟩) ∧
        ∀ g ∈ existing, g.content ≠ f.content := by
    intro f hf
    rcases List.mem_filterMap.mp hf with ⟨it, hin, heq⟩
    by_cases hne : it.content ≠ "" ∧ it.itemType ≠ ""
    · rw [if_pos hne] at heq
      by_cases hdup : existing.any (fun g => g.content == it.content)
      · rw [if_pos hdup] at heq; cases heq
      · rw [if_neg hdup] at heq
        cases heq
        refine ⟨⟨it, hin, rfl⟩, fun g hg hgc => hdup ?_⟩
        exact List.any_eq_true.mpr ⟨g, hg, by simpa using hgc⟩
    · rw [if_neg hne] at heq; cases heq
  refine ⟨?_, ?_, fun f hf => (hmem f hf).2, ?_⟩
  · unfold extractAndSaveMemories uniqueContents
    rw [List.pairwise_append]
    refine ⟨hex, ?_, fun a ha b hb => (hmem b hb).2 a ha⟩
    unfold newFactsFrom
    refine List.Pairwise.filterMap _ ?_ hit
    intro a b hab x hx y hy
    -- the produced facts inherit the items' contents
    have hxa : x.content = a.content := by
      by_cases h1 : a.content ≠ "" ∧ a.itemType ≠ ""
      · rw [if_pos h1] at hx
        by_cases h2 : existing.any (fun g => g.content == a.content)
        · rw [if_pos h2] at hx; cases hx
        · rw [if_neg h2] at hx
          simp only [Option.mem_def, Option.some.injEq] at hx
          rw [← hx]
      · rw [if_neg h1] at hx; cases hx
    have hyb : y.content = b.content := by
      by_cases h1 : b.content ≠ "" ∧ b.itemType ≠ ""
      · rw [if_pos h1] at hy
        by_cases h2 : existing.any (fun g => g.content == b.content)
        · rw [if_pos h2] at hy; cases hy
        · rw [if_neg h2] at hy
          simp only [Option.mem_def, Option.some.injEq] at hy
          rw [← hy]
      · rw [if_neg h1] at hy; cases hy
    rw [hxa, hyb]; exact hab
  · intro f hf
    rcases (hmem f hf).1 with ⟨it, -, hfe⟩
    subst hfe
    unfold clampImportance
    constructor
    · exact le_min (by norm_num) (le_max_left 0 _)
    · exact min_le_left 1 _
  · unfold clampImportance
    simp only [Option.getD_none]
    rw [max_eq_right (by norm_num), min_eq_right (by norm_num)]

/-- C8 witness: an empty store plus a batch of two distinct items — one with
an out-of-range importance, one with none — satisfies dedup, clamping and
the uniqueness invariant. -/
theorem extraction_dedup_and_clamp_witness :
    uniqueContents (extractAndSaveMemories []
        [⟨"goal", "wants to run a 5k", some (3 / 2)⟩,
         ⟨"preference", "prefers short answers", none⟩]) ∧
      (∀ f ∈ newFactsFrom []
          [⟨"goal", "wants to run a 5k", some (3 / 2)⟩,
           ⟨"preference", "prefers short answers", none⟩],
        0 ≤ f.importance ∧ f.importance ≤ 1) ∧
      (∀ f ∈ newFactsFrom []
          [⟨"goal", "wants to run a 5k", some (3 / 2)⟩,
           ⟨"preference", "prefers short answers", none⟩],
        ∀ g ∈ ([] : List FactRec), g.content ≠ f.content) ∧
      clampImportance none = 1 / 2 :=
  extraction_dedup_and_clamp []
    [⟨"goal", "wants to run a 5k", some (3 / 2)⟩,
     ⟨"preference", "prefers short answers", none⟩]
    List.Pairwise.nil (by simp)

/-! ## C9: typing marker cleared on every exit path -/

/-- C9: whenever message processing gets past input validation — the point
at which the typing marker is set — the marker is cleared before the call
returns, on the success path, on generation failure, and on persistence
failure alike (the `finally` block always runs `set_typing(user_id, False)`). -/
theorem typing_cleared_on_exit (committed : List Msg) (typing0 : Bool)
    (uid : Nat) (content : String) (f : Nat → AttemptResult) (commitOk : Bool)
    (now : Nat)
    (h1 : content ≠ "") (h2 : pyStrip content ≠ "")
    (h3 : ¬ 4000 < (pyStrip content).length) :
    (processMessage committed typing0 uid content f commitOk now).typing = false := by
  unfold processMessage
  rw [if_neg h1]
  dsimp only
  rw [if_neg h2, if_neg h3]
  cases (generateResponseWithRetry f).result with
  | error e => rfl
  | ok text => cases commitOk <;> simp

/-- C9 witness: a concrete run through each of the three exits — success,
generation failure, and persistence failure — all ending with the typing
flag cleared. -/
theorem typing_cleared_on_exit_witness :
    (processMessage [] true 1 "hi" (fun _ => .success "yo") true 5).typing = false ∧
      (processMessage [] true 1 "hi" (fun _ => .failure "down") true 5).typing = false ∧
      (processMessage [] true 1 "hi" (fun _ => .success "yo") false 5).typing = false :=
  ⟨typing_cleared_on_exit [] true 1 "hi" (fun _ => .success "yo") true 5
      (by decide) (by decide) (by decide),
    typing_cleared_on_exit [] true 1 "hi" (fun _ => .failure "down") true 5
      (by decide) (by decide) (by decide),
    typing_cleared_on_exit [] true 1 "hi" (fun _ => .success "yo") false 5
      (by decide) (by decide) (by decide)⟩

/-! ## C1: persistence after retry exhaustion -/

/-- C1 counterexample: a backend failing on every attempt exhausts the retry
budget, the surrounding `except` block rolls the transaction back, and the
user turn — which had only been flushed, not committed — is gone: the store
is empty after the call, contradicting the claim that the user's message
remains durably stored. -/
theorem user_turn_lost_on_retry_exhaustion :
    (processMessage [] false 1 "hi" (fun _ => .failure "backend down") true 5).committed
        = [] ∧
      (processMessage [] false 1 "hi" (fun _ => .failure "backend down") true 5).result
        = .error (exhaustMsg 2 "backend down") := by
  constructor <;> rfl

/-- C1 (amended): when generation exhausts all retries the whole transaction
is rolled back, so the user turn and the assistant turn are both absent —
the store is exactly as before the call and the call reports an error;
dually, on a successful exchange the two turns are committed together. -/
theorem retry_exhaustion_rolls_back_exchange (committed : List Msg)
    (typing0 : Bool) (uid : Nat) (content : String) (f : Nat → AttemptResult)
    (commitOk : Bool) (now : Nat) (e : String)
    (hgen : (generateResponseWithRetry f).result = .error e) :
    (processMessage committed typing0 uid content f commitOk now).committed =
        committed ∧
      ∀ pair, (processMessage committed typing0 uid content f commitOk now).result
        ≠ .ok pair := by
  unfold processMessage
  by_cases h1 : content = ""
  · rw [if_pos h1]; exact ⟨rfl, fun pair h => by cases h⟩
  · rw [if_neg h1]
    dsimp only
    by_cases h2 : pyStrip content = ""
    · rw [if_pos h2]; exact ⟨rfl, fun pair h => by cases h⟩
    · rw [if_neg h2]
      by_cases h3 : 4000 < (pyStrip content).length
      · rw [if_pos h3]; exact ⟨rfl, fun pair h => by cases h⟩
      · rw [if_neg h3, hgen]
        exact ⟨rfl, fun pair h => by cases h⟩

/-- C1 witness: the always-failing backend at a concrete input leaves a
pre-existing store untouched and produces no success result. -/
theorem retry_exhaustion_rolls_back_exchange_witness :
    (processMessage [⟨1, "user", "earlier", 1⟩] false 1 "hi"
        (fun _ => .failure "backend down") true 5).committed =
        [⟨1, "user", "earlier", 1⟩] ∧
      ∀ pair, (processMessage [⟨1, "user", "earlier", 1⟩] false 1 "hi"
        (fun _ => .failure "backend down") true 5).result ≠ .ok pair :=
  retry_exhaustion_rolls_back_exchange [⟨1, "user", "earlier", 1⟩] false 1 "hi"
    (fun _ => .failure "backend down") true 5 (exhaustMsg 2 "backend down") rfl

/-! ## C10: persisted content versus the claimed sanitisation pipeline -/

/-- The value computed by the sanitiser's transformation stage (the part of
`sanitize_content` after the early rejections). -/
def codeSanitizePipeline (v : String) : String :=
  collapseRuns ' ' 10 4
    (collapseRuns '\n' 4 3
      (String.mk ((pyStrip v).data.filter (fun c => !isRemovedCtrl c))))

theorem ctrl_pred_eq (c : Char) :
    isRemovedCtrl c = (isClaimRemovedCtrl c && !(c.toNat == 13)) := by
  rw [Bool.eq_iff_iff]
  unfold isRemovedCtrl isClaimRemovedCtrl
  simp only [Bool.or_eq_true, Bool.and_eq_true, decide_eq_true_eq, beq_iff_eq,
    Bool.not_eq_true', beq_eq_false_iff_ne]
  omega

theorem pyStrip_pipeline (v : String) :
    pyStrip (codeSanitizePipeline v) = amendedSanitize v := by
  unfold codeSanitizePipeline amendedSanitize
  have hfun : (fun c => !isRemovedCtrl c) =
      (fun c => !(isClaimRemovedCtrl c && !(c.toNat == 13))) :=
    funext fun c => congrArg Bool.not (ctrl_pred_eq c)
  rw [hfun]

theorem collapseRunsAux_length (target : Char) (threshold keep : Nat)
    (hk : keep ≤ threshold) :
    ∀ (l : List Char) (run : Nat),
      (collapseRunsAux target threshold keep l run).length ≤ l.length + run
  | [], run => by
    unfold collapseRunsAux
    rw [List.length_replicate]
    split <;> omega
  | c :: rest, run => by
    unfold collapseRunsAux
    split
    · have := collapseRunsAux_length target threshold keep hk rest (run + 1)
      simpa [Nat.add_assoc, Nat.add_comm, Nat.add_left_comm] using this
    · have := collapseRunsAux_length target threshold keep hk rest 0
      simp only [List.length_append, List.length_replicate, List.length_cons]
      split <;> omega

theorem collapseRuns_length (target : Char) (threshold keep : Nat)
    (hk : keep ≤ threshold) (s : String) :
    (collapseRuns target threshold keep s).length ≤ s.length := by
  simpa using collapseRunsAux_length target threshold keep hk s.data 0

theorem pyStrip_length (s : String) : (pyStrip s).length ≤ s.length := by
  show (((s.data.dropWhile isPyWhitespace).reverse.dropWhile
    isPyWhitespace).reverse).length ≤ s.data.length
  rw [List.length_reverse]
  calc ((s.data.dropWhile isPyWhitespace).reverse.dropWhile isPyWhitespace).length
      ≤ (s.data.dropWhile isPyWhitespace).reverse.length :=
        (List.dropWhile_sublist _).length_le
    _ = (s.data.dropWhile isPyWhitespace).length := List.length_reverse _
    _ ≤ s.data.length := (List.dropWhile_sublist _).length_le

theorem sanitize_ok (v out : String) (h : sanitizeContent v = .ok out) :
    out = codeSanitizePipeline v ∧ pyStrip out ≠ "" ∧ out.length ≤ 4000 := by
  unfold sanitizeContent at h
  by_cases h1 : pyStrip v = ""
  · rw [if_pos h1] at h; cases h
  · rw [if_neg h1] at h
    by_cases h2 : 4000 < (pyStrip v).length
    · rw [if_pos h2] at h; cases h
    · rw [if_neg h2] at h
      dsimp only at h
      by_cases h3 : pyStrip (collapseRuns ' ' 10 4 (collapseRuns '\n' 4 3
          (String.mk ((pyStrip v).data.filter (fun c => !isRemovedCtrl c))))) = ""
      · rw [if_pos h3] at h; cases h
      · rw [if_neg h3] at h
        cases h
        refine ⟨rfl, h3, ?_⟩
        calc (codeSanitizePipeline v).length
            ≤ (collapseRuns '\n' 4 3 (String.mk
                ((pyStrip v).data.filter (fun c => !isRemovedCtrl c)))).length :=
              collapseRuns_length ' ' 10 4 (by omega) _
          _ ≤ (String.mk ((pyStrip v).data.filter (fun c => !isRemovedCtrl c))).length :=
              collapseRuns_length '\n' 4 3 (by omega) _
          _ ≤ (pyStrip v).length := List.length_filter_le _ _
          _ ≤ 4000 := by omega

/-- C10 counterexample: the input `"a\rb"` contains a carriage return — a
control character that is neither newline nor tab — yet the sanitiser keeps
it (its removal regex skips `\x0d`), and the persisted user turn carries
`"a\rb"`, not the `"ab"` the claimed pipeline produces. -/
theorem sanitizer_keeps_carriage_return :
    (sanitizeContent "a\rb").toOption = some "a\rb" ∧
      claimSanitize "a\rb" = "ab" ∧
      ("a\rb" : String) ≠ "ab" ∧
      (sendMessage [] false 1 "a\rb" (fun _ => .success "yo") true 5).committed =
        [⟨1, "user", "a\rb", 5⟩, ⟨1, "assistant", "yo", 5⟩] := by
  refine ⟨by decide, by decide, by decide, by decide⟩

/-- C10 (amended): an accepted input's persisted user-turn content equals
the input after trimming, removing null bytes and control characters other
than newline, carriage return and tab, collapsing runs of four or more
newlines to three, collapsing runs of ten or more spaces to four, and a
final service-layer trim (`amendedSanitize`); an input whose sanitised form
is empty is rejected with a validation error before any state change. -/
theorem send_message_persists_amended_sanitization (raw : String)
    (committed : List Msg) (typing0 : Bool) (uid : Nat)
    (f : Nat → AttemptResult) (now : Nat) :
    (∀ e, sanitizeContent raw = .error e →
        sendMessage committed typing0 uid raw f true now =
          ⟨committed, typing0, .error e⟩) ∧
      (∀ out, sanitizeContent raw = .ok out → pyStrip out = amendedSanitize raw) ∧
      (∀ out t, sanitizeContent raw = .ok out →
        (generateResponseWithRetry f).result = .ok t →
        ∃ asst : Msg, (sendMessage committed typing0 uid raw f true now).committed =
          committed ++ [⟨uid, "user", amendedSanitize raw, now⟩, asst]) ∧
      (amendedSanitize raw = "" → ∃ e, sanitizeContent raw = .error e) := by
  refine ⟨?_, ?_, ?_, ?_⟩
  · intro e he
    unfold sendMessage
    rw [he]
  · intro out hok
    rcases sanitize_ok raw out hok with ⟨hpipe, -, -⟩
    rw [hpipe, pyStrip_pipeline]
  · intro out t hok hgen
    rcases sanitize_ok raw out hok with ⟨hpipe, hne, hlen⟩
    have hout : out ≠ "" := fun h0 => hne (by rw [h0]; rfl)
    have hll : ¬ 4000 < (pyStrip out).length := by
      have := pyStrip_length out
      omega
    unfold sendMessage
    rw [hok]
    dsimp only
    unfold processMessage
    rw [if_neg hout]
    dsimp only
    rw [if_neg hne, if_neg hll, hgen]
    dsimp only
    exact ⟨_, by rw [hpipe, pyStrip_pipeline]; simp; rfl⟩
  · intro hempty
    cases hs : sanitizeContent raw with
    | error e => exact ⟨e, rfl⟩
    | ok out =>
      rcases sanitize_ok raw out hs with ⟨hpipe, hne, -⟩
      rw [hpipe, pyStrip_pipeline, hempty] at hne
      exact absurd rfl hne

/-- C10 witness: sending `"  hello  "` persists a user turn whose content is
exactly `amendedSanitize "  hello  "`, and the error/empty branches hold at
this input as well. -/
theorem send_message_persists_amended_sanitization_witness :
    ((∀ e, sanitizeContent "  hello  " = .error e →
        sendMessage [] false 1 "  hello  " (fun _ => .success "yo") true 5 =
          ⟨[], false, .error e⟩) ∧
      (∀ out, sanitizeContent "  hello  " = .ok out →
        pyStrip out = amendedSanitize "  hello  ") ∧
      (∀ out t, sanitizeContent "  hello  " = .ok out →
        (generateResponseWithRetry (fun _ => .success "yo")).result = .ok t →
        ∃ asst : Msg, (sendMessage [] false 1 "  hello  "
            (fun _ => .success "yo") true 5).committed =
          [] ++ [⟨1, "user", amendedSanitize "  hello  ", 5⟩, asst]) ∧
      (amendedSanitize "  hello  " = "" →
        ∃ e, sanitizeContent "  hello  " = .error e)) ∧
      amendedSanitize "  hello  " = "hello" :=
  ⟨send_message_persists_amended_sanitization "  hello  " [] false 1
      (fun _ => .success "yo") 5,
    by decide⟩

/-! ## C7: cursor pagination — supporting lemmas -/

/-- The owner's rows as the paginator's SQL filters see them: all messages of
`uid`, and strictly older than the cursor when one is supplied. -/
def cursorFiltered (store : List Msg) (uid : Nat) : Option Nat → List Msg
  | none => store.filter (fun m => m.user_id == uid)
  | some c => (store.filter (fun m => m.user_id == uid)).filter
      (fun m => m.created_at < c)

theorem sortScoreDesc_strict (l : List Msg)
    (hdist : l.Pairwise (fun a b => a.created_at ≠ b.created_at)) :
    (sortScoreDesc Msg.created_at l).Pairwise
      (fun a b => b.created_at < a.created_at) := by
  have hsorted := sortScoreDesc_pairwise Msg.created_at l
  have hperm := sortScoreDesc_perm Msg.created_at l
  have hne : (sortScoreDesc Msg.created_at l).Pairwise
      (fun a b => a.created_at ≠ b.created_at) :=
    (hperm.pairwise_iff (fun {x y} h => h.symm)).mpr hdist
  exact (hsorted.and hne).imp (fun h => lt_of_le_of_ne h.1 (Ne.symm h.2))

theorem sort_filter_comm (p : Msg → Bool) (l : List Msg)
    (hdist : l.Pairwise (fun a b => a.created_at ≠ b.created_at)) :
    sortScoreDesc Msg.created_at (l.filter p) =
      (sortScoreDesc Msg.created_at l).filter p := by
  haveI : IsAntisymm Msg (fun a b => b.created_at < a.created_at) :=
    ⟨fun a b h1 h2 => absurd (lt_trans h1 h2) (lt_irrefl _)⟩
  have hdistf : (l.filter p).Pairwise (fun a b => a.created_at ≠ b.created_at) :=
    List.Pairwise.sublist (List.filter_sublist l) hdist
  have hs1 := sortScoreDesc_strict (l.filter p) hdistf
  have hs2 : ((sortScoreDesc Msg.created_at l).filter p).Pairwise
      (fun a b => b.created_at < a.created_at) :=
    List.Pairwise.sublist (List.filter_sublist _) (sortScoreDesc_strict l hdist)
  have hp1 := sortScoreDesc_perm Msg.created_at (l.filter p)
  have hp2 : ((sortScoreDesc Msg.created_at l).filter p).Perm (l.filter p) :=
    List.Perm.filter p (sortScoreDesc_perm Msg.created_at l)
  exact List.eq_of_perm_of_sorted (hp1.trans hp2.symm) hs1 hs2

theorem filter_lt_get_strictDesc :
    ∀ (l : List Msg),
      l.Pairwise (fun a b => b.created_at < a.created_at) →
      ∀ (i : Nat) (hi : i < l.length),
        l.filter (fun m => m.created_at < (l.get ⟨i, hi⟩).created_at) =
          l.drop (i + 1)
  | [], _, i, hi => absurd hi (by simp)
  | h :: t, hp, 0, hi => by
    rcases List.pairwise_cons.mp hp with ⟨hhead, htail⟩
    show List.filter (fun m => m.created_at < h.created_at) (h :: t) = t
    rw [List.filter_cons]
    rw [if_neg (by simp)]
    apply List.filter_eq_self.mpr
    intro x hx
    simpa using hhead x hx
  | h :: t, hp, i + 1, hi => by
    rcases List.pairwise_cons.mp hp with ⟨hhead, htail⟩
    have hit : i < t.length := by simpa using hi
    show List.filter
      (fun m => m.created_at < (t.get ⟨i, hit⟩).created_at) (h :: t) = t.drop (i + 1)
    rw [List.filter_cons]
    rw [if_neg (by
      have := hhead (t.get ⟨i, hit⟩) (t.get_mem _ _)
      simp only [decide_eq_true_eq]
      omega)]
    exact filter_lt_get_strictDesc t htail i hit

theorem getHistory_short (store : List Msg) (uid : Nat) (cursor : Option Nat)
    (h : (sortScoreDesc Msg.created_at (cursorFiltered store uid cursor)).length ≤ 20) :
    getHistory store uid cursor 20 =
      ⟨(sortScoreDesc Msg.created_at (cursorFiltered store uid cursor)).reverse,
        false, none⟩ := by
  have hmax : max 1 (min 20 50) = 20 := by norm_num
  unfold getHistory
  cases cursor with
  | none =>
    simp only [cursorFiltered] at h ⊢
    dsimp only
    rw [hmax]
    rw [List.take_of_length_le (by omega)]
    rw [if_neg (by omega), if_neg (by omega)]
    congr 1
    exact decide_eq_false (by omega)
  | some c =>
    simp only [cursorFiltered] at h ⊢
    dsimp only
    rw [hmax]
    rw [List.take_of_length_le (by omega)]
    rw [if_neg (by omega), if_neg (by omega)]
    congr 1
    exact decide_eq_false (by omega)

theorem getHistory_long (store : List Msg) (uid : Nat) (cursor : Option Nat)
    (h : 20 < (sortScoreDesc Msg.created_at (cursorFiltered store uid cursor)).length) :
    getHistory store uid cursor 20 =
      ⟨((sortScoreDesc Msg.created_at (cursorFiltered store uid cursor)).take 20).reverse,
        true,
        ((sortScoreDesc Msg.created_at
          (cursorFiltered store uid cursor)).take 20).getLast?.map Msg.created_at⟩ := by
  have hmax : max 1 (min 20 50) = 20 := by norm_num
  unfold getHistory
  cases cursor with
  | none =>
    simp only [cursorFiltered] at h ⊢
    dsimp only
    rw [hmax]
    set m := sortScoreDesc Msg.created_at (store.filter (fun x => x.user_id == uid)) with hm
    have htt : (m.take (20 + 1)).take 20 = m.take 20 := by
      rw [List.take_take]; norm_num
    have hcond : 20 < (m.take (20 + 1)).length := by
      rw [List.length_take]; omega
    rw [if_pos hcond, if_pos hcond, htt]
    congr 1
    exact decide_eq_true hcond
  | some c =>
    simp only [cursorFiltered] at h ⊢
    dsimp only
    rw [hmax]
    set m := sortScoreDesc Msg.created_at
      ((store.filter (fun x => x.user_id == uid)).filter
        (fun x => x.created_at < c)) with hm
    have htt : (m.take (20 + 1)).take 20 = m.take 20 := by
      rw [List.take_take]; norm_num
    have hcond : 20 < (m.take (20 + 1)).length := by
      rw [List.length_take]; omega
    rw [if_pos hcond, if_pos hcond, htt]
    congr 1
    exact decide_eq_true hcond

theorem followPages_visits_all (store : List Msg) (uid : Nat)
    (hdist : (store.filter (fun m => m.user_id == uid)).Pairwise
      (fun a b => a.created_at ≠ b.created_at)) :
    ∀ (fuel : Nat) (cursor : Option Nat),
      (cursorFiltered store uid cursor).length < fuel →
      ∃ visited, followPages store uid 20 cursor fuel = some visited ∧
        visited.Perm (cursorFiltered store uid cursor) := by
  intro fuel
  induction fuel with
  | zero => intro cursor h; omega
  | succ fuel ih =>
    intro cursor hlen
    have hFdist : (cursorFiltered store uid cursor).Pairwise
        (fun a b => a.created_at ≠ b.created_at) := by
      cases cursor with
      | none => exact hdist
      | some c => exact List.Pairwise.sublist (List.filter_sublist _) hdist
    have hstrict := sortScoreDesc_strict _ hFdist
    have hperm := sortScoreDesc_perm Msg.created_at (cursorFiltered store uid cursor)
    have hmlen := hperm.length_eq
    by_cases hlong :
        20 < (sortScoreDesc Msg.created_at (cursorFiltered store uid cursor)).length
    · -- a full page plus more: peel 20 rows and recurse on the cursor
      set m := sortScoreDesc Msg.created_at (cursorFiltered store uid cursor) with hm
      have h19 : 19 < m.length := by omega
      have hl20 : (m.take 20).length = 20 := by rw [List.length_take]; omega
      have hlast : (m.take 20).getLast? = some (m.get ⟨19, h19⟩) := by
        rw [List.getLast?_eq_getElem?, hl20]
        rw [List.getElem?_take_of_lt (by omega)]
        rw [List.getElem?_eq_getElem h19]
        rfl
      have hts19lt : ∀ c, cursor = some c → (m.get ⟨19, h19⟩).created_at < c := by
        intro c hc
        have hmem : m.get ⟨19, h19⟩ ∈ m := m.get_mem _ _
        have hmemF := (hperm.mem_iff).mp hmem
        rw [hc] at hmemF
        have := List.of_mem_filter hmemF
        simpa using this
      have hdropF : (cursorFiltered store uid
          (some ((m.get ⟨19, h19⟩).created_at))).Perm (m.drop 20) := by
        have hfd : m.filter
            (fun x => x.created_at < (m.get ⟨19, h19⟩).created_at) = m.drop 20 :=
          filter_lt_get_strictDesc m hstrict 19 h19
        cases hc : cursor with
        | none =>
          rw [hc] at hperm
          show ((cursorFiltered store uid none).filter
            (fun x => x.created_at < (m.get ⟨19, h19⟩).created_at)).Perm (m.drop 20)
          rw [← hfd]
          exact List.Perm.filter _ hperm.symm
        | some c =>
          have hlt := hts19lt c hc
          rw [hc] at hperm
          have hff : (store.filter (fun x => x.user_id == uid)).filter
              (fun x => x.created_at < (m.get ⟨19, h19⟩).created_at) =
                ((store.filter (fun x => x.user_id == uid)).filter
                  (fun x => x.created_at < c)).filter
                  (fun x => x.created_at < (m.get ⟨19, h19⟩).created_at) := by
            simp only [List.filter_filter]
            apply List.filter_congr
            intro x hx
            by_cases hxc : x.created_at < (m.get ⟨19, h19⟩).created_at
            · have h1 : decide (x.created_at < (m.get ⟨19, h19⟩).created_at) = true :=
                decide_eq_true hxc
              have h2 : decide (x.created_at < c) = true := decide_eq_true (by omega)
              rw [h1, h2]
              simp
            · have h1 : decide (x.created_at < (m.get ⟨19, h19⟩).created_at) = false :=
                decide_eq_false hxc
              rw [h1]
              simp
          show ((store.filter (fun x => x.user_id == uid)).filter
            (fun x => x.created_at < (m.get ⟨19, h19⟩).created_at)).Perm (m.drop 20)
          rw [hff, ← hfd]
          exact List.Perm.filter _ hperm.symm
      have hdroplen : (cursorFiltered store uid
          (some ((m.get ⟨19, h19⟩).created_at))).length < fuel := by
        have h1 := hdropF.length_eq
        rw [List.length_drop] at h1
        omega
      obtain ⟨rest, hrest, hrestperm⟩ :=
        ih (some ((m.get ⟨19, h19⟩).created_at)) hdroplen
      refine ⟨(m.take 20).reverse ++ rest, ?_, ?_⟩
      · show (let page := getHistory store uid cursor 20
          if page.hasMore then
            (followPages store uid 20 page.nextCursor fuel).map
              (fun r => page.messages ++ r)
          else some page.messages) = _
        rw [getHistory_long store uid cursor hlong]
        simp only [hlast, Option.map_some']
        rw [hrest]
        simp
      · have h1 : ((m.take 20).reverse ++ rest).Perm (m.take 20 ++ m.drop 20) :=
          List.Perm.append (List.reverse_perm _) (hrestperm.trans hdropF)
        rw [List.take_append_drop] at h1
        exact h1.trans hperm
    · -- everything fits on this page: has_more is false and recursion stops
      refine ⟨(sortScoreDesc Msg.created_at (cursorFiltered store uid cursor)).reverse,
        ?_, (List.reverse_perm _).trans hperm⟩
      show (let page := getHistory store uid cursor 20
        if page.hasMore then
          (followPages store uid 20 page.nextCursor fuel).map
            (fun r => page.messages ++ r)
        else some page.messages) = _
      rw [getHistory_short store uid cursor (by omega)]
      simp

theorem getHistory_older_than_cursor (store : List Msg) (uid c limit : Nat) :
    ∀ x ∈ (getHistory store uid (some c) limit).messages, x.created_at < c := by
  intro x hx
  unfold getHistory at hx
  dsimp only at hx
  rw [List.mem_reverse] at hx
  have hx' : x ∈ (sortScoreDesc Msg.created_at
      ((store.filter (fun m => m.user_id == uid)).filter
        (fun m => m.created_at < c))).take (max 1 (min limit 50) + 1) := by
    split at hx
    · exact List.mem_of_mem_take hx
    · exact hx
  have hx2 := List.mem_of_mem_take hx'
  have hx3 := (sortScoreDesc_perm Msg.created_at _).mem_iff.mp hx2
  have := List.of_mem_filter hx3
  simpa using this

theorem getHistory_chronological (store : List Msg) (uid : Nat)
    (cursor : Option Nat) (limit : Nat) :
    (getHistory store uid cursor limit).messages.Pairwise
      (fun a b => a.created_at ≤ b.created_at) := by
  unfold getHistory
  cases cursor with
  | none =>
    dsimp only
    rw [List.pairwise_reverse]
    refine List.Pairwise.sublist ?_ (sortScoreDesc_pairwise Msg.created_at
      (store.filter (fun m => m.user_id == uid)))
    split
    · exact (List.take_sublist _ _).trans (List.take_sublist _ _)
    · exact List.take_sublist _ _
  | some c =>
    dsimp only
    rw [List.pairwise_reverse]
    refine List.Pairwise.sublist ?_ (sortScoreDesc_pairwise Msg.created_at
      ((store.filter (fun m => m.user_id == uid)).filter
        (fun m => m.created_at < c)))
    split
    · exact (List.take_sublist _ _).trans (List.take_sublist _ _)
    · exact List.take_sublist _ _

theorem getHistory_nextCursor (store : List Msg) (uid : Nat)
    (cursor : Option Nat) (limit : Nat) :
    ((getHistory store uid cursor limit).hasMore = true →
        (getHistory store uid cursor limit).nextCursor =
          (getHistory store uid cursor limit).messages.head?.map Msg.created_at) ∧
      ((getHistory store uid cursor limit).hasMore = false →
        (getHistory store uid cursor limit).nextCursor = none) := by
  unfold getHistory
  dsimp only
  constructor
  · intro h
    rw [if_pos (of_decide_eq_true h), List.head?_reverse]
  · intro h
    rw [if_neg (of_decide_eq_false h)]

/-- A store whose 20th and 21st newest turns share a creation timestamp. -/
def dupStore : List Msg :=
  (List.range 19).map (fun i => ⟨1, "user", "m", 200 - i⟩) ++
    [⟨1, "user", "a", 103⟩, ⟨1, "user", "b", 103⟩]

/-- C7 counterexample: over 21 stored turns where the 20th and 21st newest
share a timestamp, page 1 returns 20 turns and sets the cursor to that
shared timestamp; page 2 selects turns strictly older, skipping the 21st
turn entirely — the traversal terminates having visited only 20 of the 21
turns, so it does not visit each stored turn exactly once. -/
theorem pagination_skips_duplicate_timestamp :
    ¬ ∃ visited, followPages dupStore 1 20 none (dupStore.length + 1) = some visited ∧
      visited.Perm (dupStore.filter (fun m => m.user_id == 1)) := by
  rintro ⟨v, hv, hp⟩
  have h1 : (followPages dupStore 1 20 none (dupStore.length + 1)).map List.length
      = some 20 := by decide
  rw [hv] at h1
  simp only [Option.map_some', Option.some.injEq] at h1
  have h2 : (dupStore.filter (fun m => m.user_id == 1)).length = 21 := by decide
  have h3 := hp.length_eq
  omega

/-- C7 (amended): provided the owner's stored turns have pairwise-distinct
creation timestamps, fetching the first page with no cursor and following
`next_cursor` with page size 20 visits each stored turn exactly once and
terminates (with `has_more = false` on the final page); on each page the
returned turns are strictly older than the supplied cursor, each page is in
chronological order, and `next_cursor` is the oldest returned turn's
timestamp when more turns remain and absent otherwise. -/
theorem pagination_visits_each_turn_once (store : List Msg) (uid : Nat)
    (hdist : (store.filter (fun m => m.user_id == uid)).Pairwise
      (fun a b => a.created_at ≠ b.created_at)) :
    (∀ c limit, ∀ x ∈ (getHistory store uid (some c) limit).messages,
        x.created_at < c) ∧
      (∀ cursor limit, (getHistory store uid cursor limit).messages.Pairwise
        (fun a b => a.created_at ≤ b.created_at)) ∧
      (∀ cursor limit,
        ((getHistory store uid cursor limit).hasMore = true →
          (getHistory store uid cursor limit).nextCursor =
            (getHistory store uid cursor limit).messages.head?.map Msg.created_at) ∧
        ((getHistory store uid cursor limit).hasMore = false →
          (getHistory store uid cursor limit).nextCursor = none)) ∧
      (∃ visited, followPages store uid 20 none (store.length + 1) = some visited ∧
        visited.Perm (store.filter (fun m => m.user_id == uid))) := by
  refine ⟨fun c limit => getHistory_older_than_cursor store uid c limit,
    fun cursor limit => getHistory_chronological store uid cursor limit,
    fun cursor limit => getHistory_nextCursor store uid cursor limit, ?_⟩
  have hlen : (cursorFiltered store uid none).length < store.length + 1 := by
    have := List.length_filter_le (fun m => m.user_id == uid) store
    exact Nat.lt_succ_of_le this
  exact followPages_visits_all store uid hdist (store.length + 1) none hlen

/-- A three-turn store with distinct timestamps for the C7 witness. -/
def demoStore : List Msg :=
  [⟨1, "user", "hi", 30⟩, ⟨1, "assistant", "hello", 20⟩, ⟨1, "user", "bye", 10⟩]

/-- C7 witness: the paginated traversal over `demoStore` terminates and
visits its three turns exactly once. -/
theorem pagination_visits_each_turn_once_witness :
    ∃ visited, followPages demoStore 1 20 none (demoStore.length + 1) = some visited ∧
      visited.Perm (demoStore.filter (fun m => m.user_id == 1)) :=
  (pagination_visits_each_turn_once demoStore 1 (by decide)).2.2.2

end HealthCoach
